import Mathlib

/-!
Verification of the Git Smart HTTP server slice of the repository: the
pkt-line codec, the ref advertisement formatter, and the three protocol
endpoints (`info/refs`, `git-upload-pack`, `git-receive-pack`) of
`createGitRouter`.  The router itself is translated from the source;
the collaborators it imports (pkt-line/packfile codec, object store,
ref manager) are modelled from the specification, as marked on each
definition.
-/

namespace JejuGit

/-- Converts a string literal to the byte-per-char list used for wire data. -/
def strL (s : String) : List Char := s.data

/-! ## Pkt-line codec (modelled from the spec, §4.2) -/

/-- Lowercase hex digit for a value below 16. -/
def hexDigit (n : Nat) : Char :=
  if n < 10 then Char.ofNat (48 + n) else Char.ofNat (87 + n)

/-- Value of one lowercase hex digit character, `none` otherwise. -/
def hexDigitVal (c : Char) : Option Nat :=
  if 48 ≤ c.toNat ∧ c.toNat ≤ 57 then some (c.toNat - 48)
  else if 97 ≤ c.toNat ∧ c.toNat ≤ 102 then some (c.toNat - 87)
  else none

/-- Lowercase hex rendering of a natural number, most significant digit
first.  Fuel-driven structural recursion; fuel 16 covers every value below
16^16, far beyond any length that can occur on the wire. -/
def natToHexAux : Nat → Nat → List Char
  | 0, _ => []
  | f + 1, n => if n < 16 then [hexDigit n] else natToHexAux f (n / 16) ++ [hexDigit (n % 16)]

/-- Lowercase hex rendering of a natural number. -/
def natToHex (n : Nat) : List Char := natToHexAux 16 n

/-- Zero-pads a digit list on the left to at least 4 characters. -/
def pad4 (l : List Char) : List Char := List.replicate (4 - l.length) '0' ++ l

/-- Modelled from the spec: `createPktLine(s)` computes `length = len(s) + 4`
in lowercase hex, zero-padded to 4 digits, concatenated with `s`. -/
def createPktLine (s : List Char) : List Char := pad4 (natToHex (s.length + 4)) ++ s

/-- Modelled from the spec: the flush-pkt is exactly `0000`. -/
def createFlushPkt : List Char := strL "0000"

/-- Accumulating hex value of a digit list, `none` on a non-hex character. -/
def hexValAux : List Char → Nat → Option Nat
  | [], a => some a
  | c :: cs, a =>
    match hexDigitVal c with
    | none => none
    | some d => hexValAux cs (16 * a + d)

/-- Hex value of a digit list (most significant first). -/
def hexValList (l : List Char) : Option Nat := hexValAux l 0

/-- Modelled from the spec: `parsePktLines` reads sequential pkt-lines until
the buffer is exhausted or a flush-pkt is seen, returning payloads with the
flush boundary elided.  A malformed length (non-hex, below `0004`, or above
`fff0` — the framing-error range of §6) or a truncated payload terminates the
parse.  Fuel-driven; each step consumes at least 4 characters, so fuel equal
to the buffer length always suffices. -/
def parsePktAux : Nat → List Char → List (List Char)
  | 0, _ => []
  | f + 1, buf =>
    if buf.length < 4 then []
    else
      match hexValList (buf.take 4) with
      | none => []
      | some n =>
        if n = 0 then []
        else if n < 4 then []
        else if 65520 < n then []
        else if (buf.drop 4).length < n - 4 then []
        else (buf.drop 4).take (n - 4) :: parsePktAux f ((buf.drop 4).drop (n - 4))

/-- Modelled from the spec: decode a buffer into the ordered sequence of
pkt-line payloads. -/
def parsePktLines (buf : List Char) : List (List Char) := parsePktAux buf.length buf

/-- Modelled from the spec: `createPktLines` frames each response line as a
pkt-line and terminates the section with a flush-pkt (the report-status reply
shape of §4.5). -/
def createPktLines (lines : List (List Char)) : List Char :=
  (lines.map createPktLine).foldr (· ++ ·) [] ++ createFlushPkt

/-! ## Node `Buffer` primitives used by the receive-pack handler -/

/-- Whether `pat` is an initial segment of `l`. -/
def listStarts : List Char → List Char → Bool
  | [], _ => true
  | _ :: _, [] => false
  | p :: ps, c :: cs => if p = c then listStarts ps cs else false

/-- First index at which `pat` occurs in the buffer, scanning left to right. -/
def bufIndexOfAux (pat : List Char) : List Char → Nat → Option Nat
  | [], i => if pat.isEmpty then some i else none
  | c :: cs, i => if listStarts pat (c :: cs) then some i else bufIndexOfAux pat cs (i + 1)

/-- `Buffer.indexOf`: first occurrence index of `pat`, `-1` when absent. -/
def bufIndexOf (b pat : List Char) : Int :=
  match bufIndexOfAux pat b 0 with
  | some i => (i : Int)
  | none => -1

/-- JavaScript index normalisation for `Buffer.subarray`: a negative index
counts from the end of the buffer, and the result is clamped to `[0, len]`. -/
def jsIdx (len : Nat) (i : Int) : Nat :=
  if i < 0 then ((len : Int) + i).toNat else min i.toNat len

/-- `Buffer.subarray(start, end)` with JavaScript negative-index semantics. -/
def bufSubarray (b : List Char) (s e : Int) : List Char :=
  (b.take (jsIdx b.length e)).drop (jsIdx b.length s)

/-! ## Object store (modelled from the spec, §4.1 and §3) -/

/-- Modelled from the spec: the parsed view of a stored Git object.  `links`
are the oids the object references (a commit: its tree then parents; a tree:
its entry oids; blobs and tags: none), `parents` the commit parents in order,
`message` the commit message or raw payload.  The binary layouts parsed by
`parseTree`/`parseCommit` are outside the visible source, so the store keeps
the parsed view directly. -/
structure StoreObj where
  links : List (List Char)
  parents : List (List Char)
  message : List Char
deriving DecidableEq

/-- Association lookup keyed by an oid / name rendered as a char list. -/
def assocFind {α : Type} : List (List Char × α) → List Char → Option α
  | [], _ => none
  | (k, v) :: rest, key => if k = key then some v else assocFind rest key

/-- Modelled from the spec: the per-repository content-addressable store. -/
structure Store where
  objs : List (List Char × StoreObj)
deriving DecidableEq

/-- Looks an object up by oid. -/
def findObj (st : Store) (oid : List Char) : Option StoreObj := assocFind st.objs oid

/-- Modelled from the spec: idempotent put — re-putting an existing oid is a
no-op. -/
def putObject (st : Store) (oid : List Char) (o : StoreObj) : Store :=
  match findObj st oid with
  | some _ => st
  | none => ⟨(oid, o) :: st.objs⟩

/-- Fuel bound for the reachability worklist: one unit per object plus one per
outgoing link, which bounds the number of worklist pops. -/
def storeFuel (st : Store) : Nat :=
  1 + st.objs.foldl (fun a p => a + 1 + p.2.links.length) 0

/-- Worklist traversal with a visited list; a missing object is a dead end
(the reached oid is kept, its absence stops the walk there). -/
def reachAux (st : Store) : Nat → List (List Char) → List (List Char) → List (List Char)
  | 0, _, visited => visited.reverse
  | _ + 1, [], visited => visited.reverse
  | f + 1, o :: rest, visited =>
    if o ∈ visited then reachAux st f rest visited
    else
      match findObj st o with
      | none => reachAux st f rest (o :: visited)
      | some obj => reachAux st f (obj.links ++ rest) (o :: visited)

/-- Modelled from the spec: breadth-first closure from a start oid following
the object graph, deduplicating visited nodes, terminating on cyclic or
missing-object input. -/
def getReachableObjects (st : Store) (startOid : List Char) : List (List Char) :=
  reachAux st (storeFuel st) [startOid] []

/-- Modelled from the spec: `walkCommits` follows first-parent links from the
start oid, stopping after `limit` commits or at a missing object. -/
def walkCommits (st : Store) : List Char → Nat → List (List Char × StoreObj)
  | _, 0 => []
  | oid, l + 1 =>
    match findObj st oid with
    | none => []
    | some o =>
      match o.parents with
      | [] => [(oid, o)]
      | p :: _ => (oid, o) :: walkCommits st p l

/-! ## Packfile codec (modelled from the spec, §4.3) -/

/-- Big-endian 4-byte rendering of a 32-bit value as chars. -/
def be32 (n : Nat) : List Char :=
  [Char.ofNat (n / 16777216 % 256), Char.ofNat (n / 65536 % 256),
   Char.ofNat (n / 256 % 256), Char.ofNat (n % 256)]

/-- Value of a big-endian 4-byte field, `none` unless exactly 4 chars. -/
def be32val : List Char → Option Nat
  | [a, b, c, d] => some (a.toNat * 16777216 + b.toNat * 65536 + c.toNat * 256 + d.toNat)
  | _ => none

/-- One packed-object record: the object's oid, a 4-byte payload length, and
the payload.  Stands in for the type+size header and zlib-deflated content,
which are external primitives. -/
def encodePackObj (st : Store) (oid : List Char) : List Char :=
  match findObj st oid with
  | none => []
  | some o => oid ++ be32 o.message.length ++ o.message

/-- Modelled from the spec: `createPackfile` emits the magic `PACK`, a 4-byte
version 2, a 4-byte big-endian object count, one record per oid, and a
20-byte trailer (the SHA-1 checksum is an external primitive, modelled as a
zero trailer). -/
def createPackfile (st : Store) (oids : List (List Char)) : List Char :=
  strL "PACK" ++ be32 2 ++ be32 oids.length ++
    (oids.map (encodePackObj st)).foldr (· ++ ·) [] ++
    List.replicate 20 (Char.ofNat 0)

/-- Error taxonomy of §7, restricted to the errors the claims exercise. -/
inductive GitError
  | nonFastForwardOrRace
  | corruptPack
deriving DecidableEq

/-- Decodes `count` packed-object records, returning them with the unread
remainder; `none` on a truncated stream. -/
def decodePackObjs : Nat → List Char → Option (List (List Char × StoreObj) × List Char)
  | 0, rest => some ([], rest)
  | k + 1, data =>
    if data.length < 44 then none
    else
      match be32val ((data.drop 40).take 4) with
      | none => none
      | some len =>
        if (data.drop 44).length < len then none
        else
          match decodePackObjs k ((data.drop 44).drop len) with
          | none => none
          | some (objs, rest) =>
            some ((data.take 40, ⟨[], [], (data.drop 44).take len⟩) :: objs, rest)

/-- Modelled from the spec: `extractPackfile` validates the magic and the
version, reads the big-endian object count, decodes that many objects, and
stores each via the idempotent put; it fails with `CorruptPackError` on a
magic or version mismatch, a truncated stream, or a trailer of the wrong
length (checksum verification is an external primitive, modelled as
requiring exactly the 20 trailer bytes).  Objects are committed only when
the whole pack decodes, which is within the partial-application allowance
of §4.3. -/
def extractPackfile (st : Store) (data : List Char) : Except GitError Store :=
  if listStarts (strL "PACK") data then
    match be32val ((data.drop 4).take 4) with
    | none => .error .corruptPack
    | some v =>
      if v ≠ 2 then .error .corruptPack
      else
        match be32val ((data.drop 8).take 4) with
        | none => .error .corruptPack
        | some count =>
          match decodePackObjs count (data.drop 12) with
          | none => .error .corruptPack
          | some (objs, rest) =>
            if rest.length = 20 then .ok (objs.foldl (fun s p => putObject s p.1 p.2) st)
            else .error .corruptPack
  else .error .corruptPack

/-! ## Ref manager (modelled from the spec, §4.4) -/

/-- Modelled from the spec: compare-and-swap branch update.  Succeeds only if
the branch's current tip equals `expectedOld`, or the branch is absent and
`expectedOld` is the zero-oid sentinel (rendered `none` by the caller);
otherwise fails with `NonFastForwardOrRaceError`.  `lastPusher` and
`updatedAt` are omitted: no claim concerns them. -/
def pushBranch (refs : List (List Char × List Char)) (branch newOid : List Char)
    (expectedOld : Option (List Char)) : Except GitError (List (List Char × List Char)) :=
  match assocFind refs branch, expectedOld with
  | none, none => .ok (refs ++ [(branch, newOid)])
  | some cur, some exp =>
    if cur = exp then .ok (refs.map fun p => if p.1 = branch then (p.1, newOid) else p)
    else .error .nonFastForwardOrRace
  | none, some _ => .error .nonFastForwardOrRace
  | some _, none => .error .nonFastForwardOrRace

/-! ## Smart HTTP protocol handlers (translated from `createGitRouter`) -/

/-- The slice of the repository record the handlers consult: `visibility` is
`0` for public and `1` for private. -/
structure Repo where
  visibility : Nat
deriving DecidableEq

/-- An advertised ref, as supplied by the ref manager's `getRefs`. -/
structure GitRef where
  oid : List Char
  name : List Char
deriving DecidableEq

/-- Outcome of one HTTP request: a response with status and body, or an
exception that escaped the handler. -/
inductive HRes
  | resp (status : Nat) (body : List Char)
  | thrown (e : GitError)
deriving DecidableEq

/-- Plain-text error response. -/
def errResp (status : Nat) (msg : String) : HRes := .resp status (strL msg)

/-- The capability string the server advertises (`GIT_AGENT` inlined). -/
def capString : String :=
  "report-status delete-refs side-band-64k quiet ofs-delta agent=jeju-git/1.0.0"

/-- The 40-zero oid sentinel. -/
def zeroOid : List Char := List.replicate 40 '0'

/-- One advertised ref line: capabilities are attached only at index 0. -/
def refLine (caps : List Char) (i : Nat) (r : GitRef) : List Char :=
  if i = 0 then r.oid ++ strL " " ++ r.name ++ strL "\x00" ++ caps
  else r.oid ++ strL " " ++ r.name

/-- The indexed ref loop of `formatInfoRefs`. -/
def refLines (caps : List Char) : Nat → List GitRef → List Char
  | _, [] => []
  | i, r :: rest => createPktLine (refLine caps i r) ++ refLines caps (i + 1) rest

/-- Translated from `formatInfoRefs`: service banner, flush, the ref lines
(or the zero-oid capabilities line when there are no refs), flush. -/
def formatInfoRefs (service : List Char) (refs : List GitRef) : List Char :=
  createPktLine (strL "# service=" ++ service) ++ createFlushPkt ++
    (match refs with
     | [] => createPktLine (zeroOid ++ strL " capabilities^\x7b\x7d\x00" ++ strL capString)
     | _ :: _ => refLines (strL capString) 0 refs) ++
    createFlushPkt

/-- The advertisement format as the specification's words describe it: a
pkt-line per ref `<oid> <refname>\x00<capabilities>` with the capability
string attached only to the first ref, or the zero-oid `capabilities^\x7b\x7d`
line when the repository has no refs, framed by the service banner and
flush-pkts. -/
def formatInfoRefsSpec (service : List Char) (refs : List GitRef) : List Char :=
  createPktLine (strL "# service=" ++ service) ++ createFlushPkt ++
    (match refs with
     | [] => createPktLine (zeroOid ++ strL " capabilities^\x7b\x7d\x00" ++ strL capString)
     | r :: rest =>
       createPktLine (r.oid ++ strL " " ++ r.name ++ strL "\x00" ++ strL capString) ++
         (rest.map fun q => createPktLine (q.oid ++ strL " " ++ q.name)).foldr (· ++ ·) []) ++
    createFlushPkt

/-- Translated from the `info/refs` handler: validates the `service` query
parameter, resolves the repository, runs the access checks (write access for
`git-receive-pack`; read access only for private repositories on the read
path), and on success emits the advertisement.  The second component records
which access-control collaborator functions were called. -/
def infoRefs (service : Option String) (repo : Option Repo) (user : Option String)
    (hasWrite hasRead : Bool) (refs : List GitRef) : HRes × List String :=
  match service with
  | none => (errResp 400 "Service required", [])
  | some s =>
    if s ≠ "git-upload-pack" ∧ s ≠ "git-receive-pack" then (errResp 400 "Service required", [])
    else
      match repo with
      | none => (errResp 404 "Repository not found", [])
      | some r =>
        if s = "git-receive-pack" then
          match user with
          | none => (errResp 401 "Authentication required", [])
          | some _ =>
            if hasWrite then (.resp 200 (formatInfoRefs (strL s) refs), ["hasWriteAccess"])
            else (errResp 403 "Write access denied", ["hasWriteAccess"])
        else
          if r.visibility = 1 then
            match user with
            | none => (errResp 401 "Authentication required", [])
            | some _ =>
              if hasRead then (.resp 200 (formatInfoRefs (strL s) refs), ["hasReadAccess"])
              else (errResp 403 "Read access denied", ["hasReadAccess"])
          else (.resp 200 (formatInfoRefs (strL s) refs), [])

/-- `line.split(' ')[1]` for a line known to start with a 5-char verb and a
space: the chars after that space up to the next space. -/
def field1 (l : List Char) : List Char := (l.drop 5).takeWhile (fun c => decide (c ≠ ' '))

/-- The `want` oids of a parsed request body. -/
def wantsOf (lines : List (List Char)) : List (List Char) :=
  lines.filterMap fun l => if listStarts (strL "want ") l then some (field1 l) else none

/-- The `have` oids of a parsed request body. -/
def havesOf (lines : List (List Char)) : List (List Char) :=
  lines.filterMap fun l => if listStarts (strL "have ") l then some (field1 l) else none

/-- Translated from the upload-pack handler's selection loop: for each want,
append the reachable closure filtered against the have set. -/
def neededOids (st : Store) (wants haves : List (List Char)) : List (List Char) :=
  wants.foldl (fun acc w => acc ++ (getReachableObjects st w).filter fun o => decide (o ∉ haves)) []

/-- Translated from the `git-upload-pack` handler: resolve the repository,
check read access for private repositories, parse wants/haves, and respond
`NAK` (plus a packfile over the needed oids when wants exist).  The second
component records the access-control calls made. -/
def uploadPack (repo : Option Repo) (user : Option String) (hasRead : Bool)
    (st : Store) (body : List Char) : HRes × List String :=
  match repo with
  | none => (errResp 404 "Repository not found", [])
  | some r =>
    let go : List String → HRes × List String := fun tr =>
      let lines := parsePktLines body
      let wants := wantsOf lines
      let haves := havesOf lines
      if wants.isEmpty then (.resp 200 (createPktLine (strL "NAK")), tr)
      else
        (.resp 200 (createPktLine (strL "NAK") ++ createPackfile st (neededOids st wants haves)), tr)
    if r.visibility = 1 then
      match user with
      | none => (errResp 401 "Authentication required", [])
      | some _ =>
        if hasRead then go ["hasReadAccess"]
        else (errResp 403 "Read access denied", ["hasReadAccess"])
    else go []

/-- One parsed ref-update command `<oldOid> <newOid> <refname>`. -/
structure Update where
  oldOid : List Char
  newOid : List Char
  refName : List Char
deriving DecidableEq

/-- Whether a char list is exactly 40 chars of `[0-9a-f]`. -/
def isHex40 (l : List Char) : Bool :=
  decide (l.length = 40) && l.all fun c => (hexDigitVal c).isSome

/-- Translated from the command regex
`^([0-9a-f]{40}) ([0-9a-f]{40}) (.+)$` (JavaScript `.` excludes LF and CR)
together with `match[3].split('\x00')[0]` for the ref name. -/
def parseUpdateLine (l : List Char) : Option Update :=
  if isHex40 (l.take 40) ∧ (l.drop 40).take 1 = [' '] ∧
      isHex40 ((l.drop 41).take 40) ∧ (l.drop 81).take 1 = [' '] ∧
      l.drop 82 ≠ [] ∧
      ((l.drop 82).all fun c => decide (c ≠ '\n') && decide (c ≠ '\x0d')) then
    some ⟨l.take 40, (l.drop 41).take 40,
      (l.drop 82).takeWhile fun c => decide (c ≠ '\x00')⟩
  else none

/-- Translated from the command loop: skip empty and `0000` lines, parse the
rest against the regex. -/
def parseUpdates (lines : List (List Char)) : List Update :=
  lines.filterMap fun l =>
    if l = [] ∨ l = strL "0000" then none else parseUpdateLine l

/-- One call made to the ref manager's `pushBranch`. -/
structure PushCall where
  branch : List Char
  newOid : List Char
  expectedOld : Option (List Char)
  count : Nat
deriving DecidableEq

/-- One call made to the contribution-tracking collaborator. -/
structure TrackCall where
  branch : List Char
  newOid : List Char
  count : Nat
  message : List Char
deriving DecidableEq

/-- The per-ref result accumulated by the push loop (`err = none` is `ok`). -/
structure RefResult where
  ref : List Char
  err : Option (List Char)
deriving DecidableEq

/-- The status line one result contributes to the report-status reply. -/
def statusLine (r : RefResult) : List Char :=
  match r.err with
  | none => strL "ok " ++ r.ref
  | some e => strL "ng " ++ r.ref ++ strL " " ++ e

/-- The tracking message: first line of the newest commit, `Push` when absent
or empty (`commits[0]?.message.split('\n')[0] || 'Push'`). -/
def trackMessage (commits : List (List Char × StoreObj)) : List Char :=
  match commits with
  | [] => strL "Push"
  | (_, o) :: _ =>
    let m := o.message.takeWhile fun c => decide (c ≠ '\n')
    if m = [] then strL "Push" else m

/-- The per-repository mutable state the receive-pack handler touches. -/
structure ServerState where
  store : Store
  refs : List (List Char × List Char)
deriving DecidableEq

/-- Translated from the ref-update loop of the receive-pack handler: refs
outside `refs/heads/` get an `ng` result; otherwise the branch name is
derived, the new tip's ancestry is walked with limit 100, and `pushBranch` is
called with the zero oid mapped to the null sentinel.  There is no exception
handler in the source loop, so a `pushBranch` failure aborts the remaining
updates; the final component carries that escaped error.  The `pusher`
argument and timestamps are omitted: no claim concerns them. -/
def pushLoop (store : Store) :
    List (List Char × List Char) → List Update →
    List (List Char × List Char) × List RefResult × List PushCall × List TrackCall × Option GitError
  | refs, [] => (refs, [], [], [], none)
  | refs, u :: rest =>
    if listStarts (strL "refs/heads/") u.refName then
      let branch := u.refName.drop 11
      let commits := walkCommits store u.newOid 100
      let expOld := if u.oldOid = zeroOid then none else some u.oldOid
      let pc : PushCall := ⟨branch, u.newOid, expOld, commits.length⟩
      match pushBranch refs branch u.newOid expOld with
      | .error e => (refs, [], [pc], [], some e)
      | .ok refs' =>
        let tc : TrackCall := ⟨branch, u.newOid, commits.length, trackMessage commits⟩
        let (refs'', res, pcs, tcs, err) := pushLoop store refs' rest
        (refs'', ⟨u.refName, none⟩ :: res, pc :: pcs, tc :: tcs, err)
    else
      let (refs'', res, pcs, tcs, err) := pushLoop store refs rest
      (refs'', ⟨u.refName, some (strL "Only branch updates supported")⟩ :: res, pcs, tcs, err)

/-- The command prefix of a push body: `body.subarray(0, packStart)`. -/
def commandPart (body : List Char) : List Char :=
  bufSubarray body 0 (bufIndexOf body (strL "PACK"))

/-- The packfile suffix of a push body: `body.subarray(packStart)`. -/
def packPart (body : List Char) : List Char :=
  bufSubarray body (bufIndexOf body (strL "PACK")) (body.length : Int)

/-- Translated from the `git-receive-pack` handler: authentication, repository
resolution and write-access checks; split the body at the first `PACK`
occurrence; parse commands from the prefix; extract the packfile suffix into
the object store; then run the ref-update loop and answer with the
report-status reply.  An error escaping `extractPackfile` or the loop leaves
the handler as a thrown exception; state mutations already committed (the
extracted objects, the refs updated before the failure) persist. -/
def receivePack (user : Option String) (repo : Option Repo) (hasWrite : Bool)
    (st : ServerState) (body : List Char) :
    HRes × ServerState × List PushCall × List TrackCall :=
  match user with
  | none => (errResp 401 "Authentication required", st, [], [])
  | some _ =>
    match repo with
    | none => (errResp 404 "Repository not found", st, [], [])
    | some _ =>
      if hasWrite then
        let updates := parseUpdates (parsePktLines (commandPart body))
        match extractPackfile st.store (packPart body) with
        | .error e => (.thrown e, st, [], [])
        | .ok store' =>
          match pushLoop store' st.refs updates with
          | (refs', _, pcs, tcs, some e) => (.thrown e, ⟨store', refs'⟩, pcs, tcs)
          | (refs', results, pcs, tcs, none) =>
            (.resp 200 (createPktLines (strL "unpack ok" :: results.map statusLine)),
              ⟨store', refs'⟩, pcs, tcs)
      else (errResp 403 "Write access denied", st, [], [])

/-! ## Concrete instances used by counterexamples and witnesses -/

/-- A 40-hex oid of `a`s. -/
def exOidA : List Char := List.replicate 40 'a'

/-- A 40-hex oid of `b`s. -/
def exOidB : List Char := List.replicate 40 'b'

/-- A 40-hex oid of `c`s. -/
def exOidC : List Char := List.replicate 40 'c'

/-- A 40-hex oid of `d`s. -/
def exOidD : List Char := List.replicate 40 'd'

/-- A well-formed packfile with zero objects. -/
def exEmptyPack : List Char :=
  strL "PACK" ++ be32 2 ++ be32 0 ++ List.replicate 20 (Char.ofNat 0)

/-- Ref-update command: move `main` from `exOidB` (stale) to `exOidC`. -/
def exCmdStale : List Char := exOidB ++ strL " " ++ exOidC ++ strL " refs/heads/main"

/-- Ref-update command: create `dev` at `exOidD`. -/
def exCmdCreate : List Char := zeroOid ++ strL " " ++ exOidD ++ strL " refs/heads/dev"

/-- A two-command push body whose first command has a stale expected old oid
while the second would succeed. -/
def exBodyStale : List Char :=
  createPktLine exCmdStale ++ createPktLine exCmdCreate ++ createFlushPkt ++ exEmptyPack

/-- State for the stale push: `main` currently points at `exOidA`. -/
def exStateStale : ServerState := ⟨⟨[]⟩, [(strL "main", exOidA)]⟩

/-- A store holding one root commit `exOidC` with message `hi`. -/
def exStateOne : ServerState := ⟨⟨[(exOidC, ⟨[], [], strL "hi"⟩)]⟩, []⟩

/-- A push body creating `main` at the commit `exOidC`. -/
def exBodyCreate : List Char :=
  createPktLine (zeroOid ++ strL " " ++ exOidC ++ strL " refs/heads/main") ++
    createFlushPkt ++ exEmptyPack

/-- A store where two tip commits `exOidA` and `exOidB` share the object
`exOidC`, so their reachable closures overlap. -/
def exStoreShared : Store :=
  ⟨[(exOidA, ⟨[exOidC], [], []⟩), (exOidB, ⟨[exOidC], [], []⟩), (exOidC, ⟨[], [], []⟩)]⟩

/-- An upload-pack body wanting both shared-closure tips. -/
def exBodyTwoWants : List Char :=
  createPktLine (strL "want " ++ exOidA) ++ createPktLine (strL "want " ++ exOidB) ++
    createFlushPkt

/-- A payload one byte past the pkt-line maximum of 65516. -/
def exLongPayload : List Char := List.replicate 65517 'a'

/-! ## Theorems -/

theorem refLines_pos (caps : List Char) (rest : List GitRef) (i : Nat) (h : i ≠ 0) :
    refLines caps i rest =
      (rest.map fun q => createPktLine (q.oid ++ strL " " ++ q.name)).foldr (· ++ ·) [] := by
  induction rest generalizing i with
  | nil => simp [refLines]
  | cons q qs ih =>
    simp [refLines, refLine, h, ih (i + 1) (Nat.succ_ne_zero i)]

/-- Claim C5: for every successful ref advertisement, the response body is a
pkt-line `# service=<name>`, a flush-pkt, then one pkt-line per ref
`<oid> <refname>\x00<capabilities>` with the capability string attached only
to the first ref — or the 40-zero `capabilities^\x7b\x7d` line when the
repository has no refs — terminated by a flush-pkt, with the advertised
capability string `report-status delete-refs side-band-64k quiet ofs-delta
agent=<server-agent>`. -/
theorem claim5_info_refs_format (service : List Char) (refs : List GitRef) :
    formatInfoRefs service refs = formatInfoRefsSpec service refs := by
  cases refs with
  | nil => rfl
  | cons r rest =>
    simp [formatInfoRefs, formatInfoRefsSpec, refLines, refLine,
      refLines_pos (strL capString) rest 1 one_ne_zero]

/-- Claim C7: a GET `info/refs` request whose `service` query parameter is
missing, or names neither `git-upload-pack` nor `git-receive-pack`, fails
with HTTP 400 and produces no advertisement output. -/
theorem claim7_bad_service (service : Option String) (repo : Option Repo)
    (user : Option String) (hw hr : Bool) (refs : List GitRef)
    (h : ∀ s, service = some s → s ≠ "git-upload-pack" ∧ s ≠ "git-receive-pack") :
    infoRefs service repo user hw hr refs = (errResp 400 "Service required", []) := by
  cases service with
  | none => rfl
  | some s =>
    have hs := h s rfl
    simp [infoRefs, hs.1, hs.2]

/-- Witness for C7 at the concrete service value `foo`. -/
theorem claim7_bad_service_witness :
    infoRefs (some "foo") none none false false [] = (errResp 400 "Service required", []) :=
  claim7_bad_service (some "foo") none none false false []
    (by intro s hs; cases hs; exact ⟨by decide, by decide⟩)

/-- Claim C4: for every authorized upload-pack request, if the parsed body
has no `want` lines the response body is exactly one pkt-line `NAK` and
nothing else; otherwise it is exactly one pkt-line `NAK` followed
immediately by the raw packfile bytes with no further pkt-line wrapping. -/
theorem claim4_upload_nak (r : Repo) (user : Option String) (hasRead : Bool)
    (st : Store) (body : List Char)
    (hauth : r.visibility = 1 → (∃ u, user = some u) ∧ hasRead = true) :
    (uploadPack (some r) user hasRead st body).1 =
      .resp 200
        (if (wantsOf (parsePktLines body)).isEmpty then createPktLine (strL "NAK")
         else createPktLine (strL "NAK") ++
           createPackfile st
             (neededOids st (wantsOf (parsePktLines body)) (havesOf (parsePktLines body)))) := by
  by_cases hv : r.visibility = 1
  · obtain ⟨⟨u, hu⟩, hr⟩ := hauth hv
    subst hu; subst hr
    simp only [uploadPack, hv, if_true]
    split <;> simp_all
  · simp only [uploadPack, hv, if_false]
    split <;> simp_all

/-- Witness for C4: a wantless request against a public repository gets the
bare `NAK` pkt-line. -/
theorem claim4_upload_nak_witness :
    (uploadPack (some ⟨0⟩) none false ⟨[]⟩ []).1 = .resp 200 (createPktLine (strL "NAK")) := by
  have h := claim4_upload_nak ⟨0⟩ none false ⟨[]⟩ [] (fun hv => absurd hv (by decide))
  rw [h]; decide

set_option maxRecDepth 400000

/-- Counterexample to C6 as stated: on a public repository (visibility 0)
both the upload-pack ref advertisement and the upload-pack endpoint serve a
requester with no actor identity — the status is 200, the full protocol
output is returned, no 401 is produced, and the access-control trace is
empty, so `hasReadAccess` is never consulted. -/
theorem claim6_cex :
    (infoRefs (some "git-upload-pack") (some ⟨0⟩) none false false []).2 = [] ∧
    (infoRefs (some "git-upload-pack") (some ⟨0⟩) none false false []).1 =
      HRes.resp 200 (formatInfoRefs (strL "git-upload-pack") []) ∧
    (uploadPack (some ⟨0⟩) none false ⟨[]⟩ []).2 = [] ∧
    (uploadPack (some ⟨0⟩) none false ⟨[]⟩ []).1 = HRes.resp 200 (createPktLine (strL "NAK")) := by
  exact ⟨rfl, by decide, rfl, by decide⟩

/-- Claim C6 (amended): on the read paths — the upload-pack ref
advertisement and the upload-pack endpoint — a private repository
(visibility 1) consults `hasReadAccess` before any ref or object data is
returned: a missing actor identity yields 401 and a denied check yields
403, in both cases with a plain error-text body and no protocol output,
while a granted check returns the 200 protocol output with the trace
recording the `hasReadAccess` consult.  Public repositories are served on
these read paths without consulting `hasReadAccess` and without requiring
an actor identity.  Receive-pack ref advertisements never consult
`hasReadAccess`: they require an actor identity even for public
repositories (401 when missing) and consult `hasWriteAccess` instead,
returning ref data when write access is granted. -/
theorem claim6_amended (r : Repo) (user : Option String) (hw hr : Bool)
    (refs : List GitRef) (st : Store) (body : List Char) :
    (r.visibility = 1 →
      (user = none →
        infoRefs (some "git-upload-pack") (some r) user hw hr refs =
          (errResp 401 "Authentication required", []) ∧
        uploadPack (some r) user hr st body = (errResp 401 "Authentication required", [])) ∧
      (∀ u, user = some u →
        (hr = false →
          infoRefs (some "git-upload-pack") (some r) user hw hr refs =
            (errResp 403 "Read access denied", ["hasReadAccess"]) ∧
          uploadPack (some r) user hr st body =
            (errResp 403 "Read access denied", ["hasReadAccess"])) ∧
        (hr = true →
          infoRefs (some "git-upload-pack") (some r) user hw hr refs =
            (HRes.resp 200 (formatInfoRefs (strL "git-upload-pack") refs),
              ["hasReadAccess"]) ∧
          (∃ b, (uploadPack (some r) user hr st body).1 = HRes.resp 200 b) ∧
          (uploadPack (some r) user hr st body).2 = ["hasReadAccess"]))) ∧
    (r.visibility ≠ 1 →
      infoRefs (some "git-upload-pack") (some r) user hw hr refs =
        (HRes.resp 200 (formatInfoRefs (strL "git-upload-pack") refs), []) ∧
      (∃ b, (uploadPack (some r) user hr st body).1 = HRes.resp 200 b) ∧
      (uploadPack (some r) user hr st body).2 = []) ∧
    "hasReadAccess" ∉ (infoRefs (some "git-receive-pack") (some r) user hw hr refs).2 ∧
    (∀ u, user = some u → hw = true →
      infoRefs (some "git-receive-pack") (some r) user hw hr refs =
        (HRes.resp 200 (formatInfoRefs (strL "git-receive-pack") refs),
          ["hasWriteAccess"])) ∧
    (user = none →
      infoRefs (some "git-receive-pack") (some r) user hw hr refs =
        (errResp 401 "Authentication required", [])) := by
  refine ⟨?_, ?_, ?_, ?_, ?_⟩
  · intro hpriv
    constructor
    · intro hu; subst hu
      exact ⟨by simp [infoRefs, hpriv], by simp [uploadPack, hpriv]⟩
    · intro u hu
      subst hu
      constructor
      · intro hhr; subst hhr
        exact ⟨by simp [infoRefs, hpriv], by simp [uploadPack, hpriv]⟩
      · intro hhr; subst hhr
        refine ⟨by simp [infoRefs, hpriv], ?_, ?_⟩
        · by_cases hempty : (wantsOf (parsePktLines body)).isEmpty
          · exact ⟨createPktLine (strL "NAK"), by simp [uploadPack, hpriv, hempty]⟩
          · exact ⟨createPktLine (strL "NAK") ++
              createPackfile st (neededOids st (wantsOf (parsePktLines body))
                (havesOf (parsePktLines body))),
              by simp [uploadPack, hpriv, hempty]⟩
        · by_cases hempty : (wantsOf (parsePktLines body)).isEmpty <;>
            simp [uploadPack, hpriv, hempty]
  · intro hpub
    refine ⟨by simp [infoRefs, hpub], ?_, ?_⟩
    · by_cases hempty : (wantsOf (parsePktLines body)).isEmpty
      · exact ⟨createPktLine (strL "NAK"), by simp [uploadPack, hpub, hempty]⟩
      · exact ⟨createPktLine (strL "NAK") ++
          createPackfile st (neededOids st (wantsOf (parsePktLines body))
            (havesOf (parsePktLines body))),
          by simp [uploadPack, hpub, hempty]⟩
    · by_cases hempty : (wantsOf (parsePktLines body)).isEmpty <;>
        simp [uploadPack, hpub, hempty]
  · cases user with
    | none => simp [infoRefs]
    | some u => cases hw <;> simp [infoRefs]
  · intro u hu hw2
    subst hu; subst hw2
    simp [infoRefs]
  · intro hu
    subst hu
    simp [infoRefs]

/-- Witness for the amended C6: a private repository with a granted read
check returns the advertisement with the `hasReadAccess` consult recorded,
and with no actor identity it returns 401 with no protocol output. -/
theorem claim6_amended_witness :
    infoRefs (some "git-upload-pack") (some ⟨1⟩) (some "u") false true [] =
      (HRes.resp 200 (formatInfoRefs (strL "git-upload-pack") []), ["hasReadAccess"]) ∧
    infoRefs (some "git-upload-pack") (some ⟨1⟩) none false false [] =
      (errResp 401 "Authentication required", []) := by
  have h1 := claim6_amended ⟨1⟩ (some "u") false true [] ⟨[]⟩ []
  have h2 := claim6_amended ⟨1⟩ none false false [] ⟨[]⟩ []
  exact ⟨(((h1.1 rfl).2 "u" rfl).2 rfl).1, ((h2.1 rfl).1 rfl).1⟩


theorem neededOids_foldl_mem (st : Store) (haves : List (List Char)) (o : List Char)
    (wants : List (List Char)) :
    ∀ acc : List (List Char),
      (o ∈ wants.foldl
          (fun acc w => acc ++ (getReachableObjects st w).filter fun x => decide (x ∉ haves))
          acc) ↔
        o ∈ acc ∨ ((∃ w ∈ wants, o ∈ getReachableObjects st w) ∧ o ∉ haves) := by
  induction wants with
  | nil => intro acc; simp
  | cons w ws ih =>
    intro acc
    rw [List.foldl_cons, ih]
    simp only [List.mem_append, List.mem_filter, decide_eq_true_eq, List.mem_cons]
    constructor
    · rintro (((h | ⟨h1, h2⟩) | ⟨⟨w', hw', ho⟩, hn⟩))
      · exact Or.inl h
      · exact Or.inr ⟨⟨w, Or.inl rfl, h1⟩, h2⟩
      · exact Or.inr ⟨⟨w', Or.inr hw', ho⟩, hn⟩
    · rintro (h | ⟨⟨w', hw' | hw', ho⟩, hn⟩)
      · exact Or.inl (Or.inl h)
      · exact Or.inl (Or.inr ⟨hw' ▸ ho, hn⟩)
      · exact Or.inr ⟨⟨w', hw', ho⟩, hn⟩

/-- Counterexample to C3 as stated: with two wants whose reachable closures
share the object `exOidC`, the oid list the handler passes to
`createPackfile` contains `exOidC` twice — the claim's "no duplicate oids"
fails on the code, which concatenates per-want closures without
deduplicating across wants. -/
theorem claim3_cex :
    ¬ (neededOids exStoreShared [exOidA, exOidB] []).Nodup ∧
    (uploadPack (some ⟨0⟩) none false exStoreShared exBodyTwoWants).1 =
      HRes.resp 200 (createPktLine (strL "NAK") ++
        createPackfile exStoreShared (neededOids exStoreShared [exOidA, exOidB] [])) :=
  ⟨by decide, by decide⟩

/-- Claim C3 (amended): the collection of oids passed to `createPackfile` is,
as a set, exactly the union over all want oids of `getReachableObjects(want)`
minus every oid in the have set — every such oid is included and no oid
outside that difference appears — but the list may repeat an oid that lies
in the closures of several wants. -/
theorem claim3_amended (st : Store) (wants haves : List (List Char)) (o : List Char) :
    o ∈ neededOids st wants haves ↔
      (∃ w ∈ wants, o ∈ getReachableObjects st w) ∧ o ∉ haves := by
  have h := neededOids_foldl_mem st haves o wants []
  simpa [neededOids] using h

/-- Witness for the amended C3 at a concrete store and want list. -/
theorem claim3_amended_witness :
    exOidC ∈ neededOids exStoreShared [exOidA] [] ↔
      (∃ w ∈ [exOidA], exOidC ∈ getReachableObjects exStoreShared w) ∧
        exOidC ∉ ([] : List (List Char)) :=
  claim3_amended exStoreShared [exOidA] [] exOidC

theorem bufIndexOfAux_none (pat : List Char) (hp : pat ≠ []) :
    ∀ (b : List Char) (i : Nat),
      (∀ j, listStarts pat (b.drop j) = false) → bufIndexOfAux pat b i = none := by
  intro b
  induction b with
  | nil =>
    intro i _
    cases pat with
    | nil => exact absurd rfl hp
    | cons p ps => rfl
  | cons c cs ih =>
    intro i h
    have h0 : listStarts pat (c :: cs) = false := by simpa using h 0
    have hrest : ∀ j, listStarts pat (cs.drop j) = false := fun j => by
      simpa [List.drop_succ_cons] using h (j + 1)
    simp [bufIndexOfAux, h0, ih (i + 1) hrest]

/-- Claim C9: for a receive-pack body containing no occurrence of the bytes
`PACK`, `indexOf` returns `-1`, so `subarray(0, -1)` parses the ref-update
commands from the body with its final byte removed and `subarray(-1)` passes
only that final byte to `extractPackfile` as the packfile data. -/
theorem claim9_no_pack_split (body : List Char) (hne : body ≠ [])
    (h : ∀ j, listStarts (strL "PACK") (body.drop j) = false) :
    bufIndexOf body (strL "PACK") = -1 ∧
    commandPart body = body.dropLast ∧
    packPart body = [body.getLast hne] := by
  have hidx : bufIndexOf body (strL "PACK") = -1 := by
    unfold bufIndexOf
    rw [bufIndexOfAux_none (strL "PACK") (by decide) body 0 h]
  have hlen1 : jsIdx body.length (-1) = body.length - 1 := by
    unfold jsIdx
    simp only [if_pos (by omega : (-1 : Int) < 0)]
    omega
  have hlen0 : jsIdx body.length 0 = 0 := by
    unfold jsIdx
    simp
  have hlenF : jsIdx body.length (body.length : Int) = body.length := by
    unfold jsIdx
    simp
  refine ⟨hidx, ?_, ?_⟩
  · unfold commandPart bufSubarray
    rw [hidx, hlen1, hlen0, List.drop_zero, List.dropLast_eq_take]
  · unfold packPart bufSubarray
    rw [hidx, hlen1, hlenF, List.take_length]
    have hsplit := List.dropLast_append_getLast hne
    calc body.drop (body.length - 1)
        = (body.dropLast ++ [body.getLast hne]).drop body.dropLast.length := by
          rw [hsplit, List.length_dropLast]
      _ = [body.getLast hne] := List.drop_left _ _

/-- Witness for C9 at the concrete body `abc`. -/
theorem claim9_no_pack_split_witness :
    commandPart (strL "abc") = strL "ab" ∧ packPart (strL "abc") = strL "c" := by
  have h := claim9_no_pack_split (strL "abc") (by decide) (fun j => by
    match j with
    | 0 => decide
    | 1 => decide
    | 2 => decide
    | (n + 3) =>
      have h3 : (strL "abc").length = 3 := rfl
      rw [List.drop_eq_nil_of_le (by omega)]
      decide)
  exact ⟨h.2.1, h.2.2⟩

theorem bufIndexOfAux_some (pat : List Char) :
    ∀ (b : List Char) (i n : Nat), bufIndexOfAux pat b i = some n →
      i ≤ n ∧ listStarts pat (b.drop (n - i)) = true ∧
        ∀ m, m < n - i → listStarts pat (b.drop m) = false := by
  intro b
  induction b with
  | nil =>
    intro i n h
    unfold bufIndexOfAux at h
    by_cases hp : pat.isEmpty
    · rw [if_pos hp] at h
      cases h
      refine ⟨le_rfl, ?_, fun m hm => absurd hm (by omega)⟩
      cases pat with
      | nil => simp [listStarts]
      | cons p ps => simp [List.isEmpty] at hp
    · rw [if_neg hp] at h
      cases h
  | cons c cs ih =>
    intro i n h
    unfold bufIndexOfAux at h
    by_cases hs : listStarts pat (c :: cs) = true
    · rw [if_pos hs] at h
      cases h
      exact ⟨le_rfl, by simpa using hs, fun m hm => absurd hm (by omega)⟩
    · rw [if_neg hs] at h
      obtain ⟨h1, h2, h3⟩ := ih (i + 1) n h
      refine ⟨by omega, ?_, ?_⟩
      · have : n - i = (n - (i + 1)) + 1 := by omega
        rw [this, List.drop_succ_cons]
        exact h2
      · intro m hm
        cases m with
        | zero => simpa using Bool.eq_false_iff.mpr hs
        | succ m' =>
          rw [List.drop_succ_cons]
          exact h3 m' (by omega)

theorem bufIndexOf_found (b pat : List Char) (n : Nat) (h : bufIndexOf b pat = (n : Int)) :
    listStarts pat (b.drop n) = true ∧ ∀ m, m < n → listStarts pat (b.drop m) = false := by
  unfold bufIndexOf at h
  cases haux : bufIndexOfAux pat b 0 with
  | none =>
    rw [haux] at h
    have h' : (-1 : Int) = (n : Int) := h
    omega
  | some i =>
    rw [haux] at h
    have h' : (i : Int) = (n : Int) := h
    have hin : i = n := by exact_mod_cast h'
    subst hin
    obtain ⟨_, h2, h3⟩ := bufIndexOfAux_some pat b 0 i haux
    simpa using ⟨h2, h3⟩

theorem bufSubarray_take (b : List Char) (n : Nat) :
    bufSubarray b 0 (n : Int) = b.take n := by
  unfold bufSubarray jsIdx
  simp only [if_neg (by omega : ¬ ((n : Int) < 0)), if_neg (by omega : ¬ ((0 : Int) < 0))]
  rcases le_total n b.length with hle | hle
  · simp [Nat.min_eq_left hle]
  · simp [Nat.min_eq_right hle, List.take_of_length_le hle, List.take_length]

theorem bufSubarray_drop (b : List Char) (n : Nat) :
    bufSubarray b (n : Int) (b.length : Int) = b.drop n := by
  unfold bufSubarray jsIdx
  simp only [if_neg (by omega : ¬ ((n : Int) < 0)),
    if_neg (by omega : ¬ ((b.length : Int) < 0)), Int.toNat_ofNat]
  rcases le_total n b.length with hle | hle
  · simp [Nat.min_eq_left hle]
  · simp [Nat.min_eq_right hle, List.drop_of_length_le hle]

/-- Claim C2: the receive-pack handler splits the body at the first
occurrence of `PACK` (the command prefix is everything before it, the
packfile suffix everything from it on, and no earlier position matches);
when the packfile suffix fails to extract the server state is unchanged; and
whenever any ref changed, `extractPackfile` succeeded on the suffix and the
resulting store is exactly the store the updated refs live next to — so a
branch tip update never precedes storage of the pushed objects and a corrupt
pack never leaves a ref pointing at objects absent from the store. -/
theorem claim2_pack_before_refs (user : Option String) (repo : Option Repo) (hw : Bool)
    (st : ServerState) (body : List Char) :
    (∀ n : Nat, bufIndexOf body (strL "PACK") = (n : Int) →
      commandPart body = body.take n ∧ packPart body = body.drop n ∧
      listStarts (strL "PACK") (body.drop n) = true ∧
      ∀ m, m < n → listStarts (strL "PACK") (body.drop m) = false) ∧
    (∀ e, extractPackfile st.store (packPart body) = .error e →
      (receivePack user repo hw st body).2.1 = st) ∧
    ((receivePack user repo hw st body).2.1.refs ≠ st.refs →
      extractPackfile st.store (packPart body) =
        .ok (receivePack user repo hw st body).2.1.store) := by
  refine ⟨?_, ?_⟩
  · intro n hn
    obtain ⟨h1, h2⟩ := bufIndexOf_found body (strL "PACK") n hn
    refine ⟨?_, ?_, h1, h2⟩
    · unfold commandPart; rw [hn, bufSubarray_take]
    · unfold packPart; rw [hn, bufSubarray_drop]
  · cases user with
    | none => exact ⟨fun _ _ => rfl, fun hne => absurd rfl hne⟩
    | some u =>
      cases repo with
      | none => exact ⟨fun _ _ => rfl, fun hne => absurd rfl hne⟩
      | some r =>
        cases hw with
        | false => exact ⟨fun _ _ => rfl, fun hne => absurd rfl hne⟩
        | true =>
          simp only [receivePack]
          cases hext : extractPackfile st.store (packPart body) with
          | error e => exact ⟨fun _ _ => rfl, fun hne => absurd rfl hne⟩
          | ok store' =>
            dsimp only
            rcases hpl : pushLoop store' st.refs
                (parseUpdates (parsePktLines (commandPart body))) with
              ⟨refs', results, pcs, tcs, err⟩
            cases err <;>
              exact ⟨fun e he => Except.noConfusion he, fun _ => rfl⟩

/-- Witness for C2 at a concrete push that creates `main`: the refs changed,
and the packfile suffix extracted successfully into the resulting store. -/
theorem claim2_pack_before_refs_witness :
    extractPackfile exStateOne.store (packPart exBodyCreate) =
      .ok (receivePack (some "u") (some ⟨0⟩) true exStateOne exBodyCreate).2.1.store :=
  (claim2_pack_before_refs (some "u") (some ⟨0⟩) true exStateOne exBodyCreate).2.2
    (by decide)

/-- Claim C1 (code bug, at the failing input): a push carrying two ref-update
commands, where the first hits a ref compare-and-swap mismatch
(`main` is at `exOidA` but the command expects `exOidB`), does not produce a
per-ref `ng` status line: the spec-modelled `NonFastForwardOrRaceError`
thrown by `pushBranch` escapes the handler's loop, which has no exception
handling, so the whole request fails with no report-status response at all,
and the sibling command creating `refs/heads/dev` — which would have
succeeded — is never processed. -/
theorem claim1_cas_aborts_push :
    (receivePack (some "u") (some ⟨0⟩) true exStateStale exBodyStale).1 =
      HRes.thrown .nonFastForwardOrRace ∧
    (receivePack (some "u") (some ⟨0⟩) true exStateStale exBodyStale).2.1.refs =
      exStateStale.refs ∧
    assocFind (receivePack (some "u") (some ⟨0⟩) true exStateStale exBodyStale).2.1.refs
      (strL "dev") = none :=
  ⟨by decide, by decide, by decide⟩

theorem walkCommits_length_le (st : Store) :
    ∀ (l : Nat) (oid : List Char), (walkCommits st oid l).length ≤ l := by
  intro l
  induction l with
  | zero => intro oid; simp [walkCommits]
  | succ n ih =>
    intro oid
    unfold walkCommits
    cases hf : findObj st oid with
    | none => simp [hf]
    | some o =>
      cases hp : o.parents with
      | nil => simp [hf, hp]
      | cons p ps => simpa [hf, hp] using ih p

theorem pushLoop_count (store : Store) :
    ∀ (updates : List Update) (refs : List (List Char × List Char)),
      (∀ pc ∈ (pushLoop store refs updates).2.2.1,
        pc.count = (walkCommits store pc.newOid 100).length) ∧
      (∀ tc ∈ (pushLoop store refs updates).2.2.2.1,
        tc.count = (walkCommits store tc.newOid 100).length) := by
  intro updates
  induction updates with
  | nil => intro refs; simp [pushLoop]
  | cons u rest ih =>
    intro refs
    unfold pushLoop
    by_cases hs : listStarts (strL "refs/heads/") u.refName = true
    · rw [if_pos hs]
      dsimp only
      cases hpb : pushBranch refs (u.refName.drop 11) u.newOid
          (if u.oldOid = zeroOid then none else some u.oldOid) with
      | error e =>
        dsimp only
        constructor
        · intro pc hpc
          simp only [List.mem_singleton] at hpc
          subst hpc
          rfl
        · intro tc htc
          simp at htc
      | ok refs' =>
        dsimp only
        obtain ⟨ihp, iht⟩ := ih refs'
        constructor
        · intro pc hpc
          rcases List.mem_cons.mp hpc with h | h
          · subst h; rfl
          · exact ihp pc h
        · intro tc htc
          rcases List.mem_cons.mp htc with h | h
          · subst h; rfl
          · exact iht tc h
    · rw [if_neg hs]
      exact ih refs

/-- Claim C10: every commit count the receive-pack handler passes to
`pushBranch` and to contribution tracking equals the length of
`walkCommits(newOid, 100)` computed over the post-extraction store, and is
therefore never greater than 100 regardless of the true ancestry depth. -/
theorem claim10_commit_count (user : Option String) (repo : Option Repo) (hw : Bool)
    (st : ServerState) (body : List Char) :
    (∀ pc ∈ (receivePack user repo hw st body).2.2.1,
      pc.count =
        (walkCommits (receivePack user repo hw st body).2.1.store pc.newOid 100).length ∧
      pc.count ≤ 100) ∧
    (∀ tc ∈ (receivePack user repo hw st body).2.2.2,
      tc.count =
        (walkCommits (receivePack user repo hw st body).2.1.store tc.newOid 100).length ∧
      tc.count ≤ 100) := by
  cases user with
  | none => exact ⟨fun pc hpc => absurd hpc (List.not_mem_nil pc),
      fun tc htc => absurd htc (List.not_mem_nil tc)⟩
  | some u =>
    cases repo with
    | none => exact ⟨fun pc hpc => absurd hpc (List.not_mem_nil pc),
        fun tc htc => absurd htc (List.not_mem_nil tc)⟩
    | some r =>
      cases hw with
      | false => exact ⟨fun pc hpc => absurd hpc (List.not_mem_nil pc),
          fun tc htc => absurd htc (List.not_mem_nil tc)⟩
      | true =>
        simp only [receivePack]
        cases hext : extractPackfile st.store (packPart body) with
        | error e =>
          exact ⟨fun pc hpc => absurd hpc (List.not_mem_nil pc),
            fun tc htc => absurd htc (List.not_mem_nil tc)⟩
        | ok store' =>
          dsimp only
          rcases hpl : pushLoop store' st.refs
              (parseUpdates (parsePktLines (commandPart body))) with
            ⟨refs', results, pcs, tcs, err⟩
          obtain ⟨ihp, iht⟩ := pushLoop_count store'
            (parseUpdates (parsePktLines (commandPart body))) st.refs
          rw [hpl] at ihp iht
          cases err with
          | none =>
            exact ⟨fun pc hpc => ⟨ihp pc hpc, (ihp pc hpc) ▸ walkCommits_length_le store' 100 pc.newOid⟩,
              fun tc htc => ⟨iht tc htc, (iht tc htc) ▸ walkCommits_length_le store' 100 tc.newOid⟩⟩
          | some e' =>
            exact ⟨fun pc hpc => ⟨ihp pc hpc, (ihp pc hpc) ▸ walkCommits_length_le store' 100 pc.newOid⟩,
              fun tc htc => ⟨iht tc htc, (iht tc htc) ▸ walkCommits_length_le store' 100 tc.newOid⟩⟩

/-- Witness for C10 at a concrete push of one root commit: the recorded
`pushBranch` and tracking calls both carry commit count 1. -/
theorem claim10_commit_count_witness :
    ((⟨strL "main", exOidC, none, 1⟩ : PushCall).count =
      (walkCommits (receivePack (some "u") (some ⟨0⟩) true exStateOne exBodyCreate).2.1.store
        exOidC 100).length ∧
      (⟨strL "main", exOidC, none, 1⟩ : PushCall).count ≤ 100) ∧
    ((⟨strL "main", exOidC, 1, strL "hi"⟩ : TrackCall).count =
      (walkCommits (receivePack (some "u") (some ⟨0⟩) true exStateOne exBodyCreate).2.1.store
        exOidC 100).length ∧
      (⟨strL "main", exOidC, 1, strL "hi"⟩ : TrackCall).count ≤ 100) := by
  obtain ⟨hp, ht⟩ := claim10_commit_count (some "u") (some ⟨0⟩) true exStateOne exBodyCreate
  exact ⟨hp ⟨strL "main", exOidC, none, 1⟩ (by decide),
    ht ⟨strL "main", exOidC, 1, strL "hi"⟩ (by decide)⟩

theorem hexDigitVal_hexDigit (d : Nat) (h : d < 16) :
    hexDigitVal (hexDigit d) = some d := by
  interval_cases d <;> rfl

theorem hexValAux_append (l1 l2 : List Char) :
    ∀ a, hexValAux (l1 ++ l2) a =
      match hexValAux l1 a with
      | none => none
      | some v => hexValAux l2 v := by
  induction l1 with
  | nil => intro a; rfl
  | cons c cs ih =>
    intro a
    simp only [List.cons_append, hexValAux]
    cases hd : hexDigitVal c with
    | none => rfl
    | some d =>
      dsimp only
      exact ih (16 * a + d)

theorem hexValAux_natToHexAux : ∀ (f n : Nat), n < 16 ^ f →
    hexValAux (natToHexAux f n) 0 = some n := by
  intro f
  induction f with
  | zero =>
    intro n h
    have : n = 0 := by simpa using h
    subst this
    rfl
  | succ f ih =>
    intro n h
    unfold natToHexAux
    by_cases hn : n < 16
    · rw [if_pos hn]
      simp [hexValAux, hexDigitVal_hexDigit n hn]
    · rw [if_neg hn]
      rw [hexValAux_append]
      have hdiv : n / 16 < 16 ^ f := by
        rw [Nat.div_lt_iff_lt_mul (by omega : 0 < 16)]
        calc n < 16 ^ (f + 1) := h
          _ = 16 ^ f * 16 := by rw [pow_succ]
      rw [ih (n / 16) hdiv]
      simp [hexValAux, hexDigitVal_hexDigit (n % 16) (Nat.mod_lt n (by omega))]
      omega

theorem natToHexAux_length_le : ∀ (f k n : Nat), 0 < k → k ≤ f → n < 16 ^ k →
    (natToHexAux f n).length ≤ k := by
  intro f
  induction f with
  | zero => intro k n hk hkf _; omega
  | succ f ih =>
    intro k n hk hkf h
    unfold natToHexAux
    by_cases hn : n < 16
    · rw [if_pos hn]; simpa using hk
    · rw [if_neg hn]
      have hk2 : 2 ≤ k := by
        by_contra hcon
        have : k = 1 := by omega
        subst this
        simp [pow_one] at h
        omega
      have hdiv : n / 16 < 16 ^ (k - 1) := by
        rw [Nat.div_lt_iff_lt_mul (by omega : 0 < 16)]
        calc n < 16 ^ k := h
          _ = 16 ^ (k - 1) * 16 := by
            rw [← pow_succ]
            congr 1
            omega
      have := ih (k - 1) (n / 16) (by omega) (by omega) hdiv
      simp only [List.length_append, List.length_singleton]
      omega

theorem natToHex_length_le (n : Nat) (h : n < 65536) : (natToHex n).length ≤ 4 :=
  natToHexAux_length_le 16 4 n (by omega) (by omega) (by norm_num; omega)

theorem pad4_length (l : List Char) (h : l.length ≤ 4) : (pad4 l).length = 4 := by
  simp [pad4]
  omega

theorem hexValAux_zeros (k : Nat) (l : List Char) :
    hexValAux (List.replicate k '0' ++ l) 0 = hexValAux l 0 := by
  induction k with
  | zero => rfl
  | succ k ih =>
    show hexValAux ('0' :: (List.replicate k '0' ++ l)) 0 = _
    simp only [hexValAux]
    have h0 : hexDigitVal '0' = some 0 := rfl
    rw [h0]
    dsimp only
    simpa using ih

theorem hexValList_pad4_natToHex (n : Nat) (h : n < 65536) :
    hexValList (pad4 (natToHex n)) = some n := by
  unfold hexValList pad4
  rw [hexValAux_zeros]
  exact hexValAux_natToHexAux 16 n (by norm_num; omega)

theorem parsePktAux_fuel : ∀ (f g : Nat) (buf : List Char),
    buf.length ≤ f → buf.length ≤ g → parsePktAux f buf = parsePktAux g buf := by
  intro f
  induction f using Nat.strong_induction_on with
  | _ f ihf =>
    intro g buf hf hg
    cases f with
    | zero =>
      have hbuf : buf = [] := by
        cases buf with
        | nil => rfl
        | cons c cs => simp at hf
      subst hbuf
      cases g with
      | zero => rfl
      | succ g => simp [parsePktAux]
    | succ f' =>
      cases g with
      | zero =>
        have hbuf : buf = [] := by
          cases buf with
          | nil => rfl
          | cons c cs => simp at hg
        subst hbuf
        simp [parsePktAux]
      | succ g' =>
        show parsePktAux (f' + 1) buf = parsePktAux (g' + 1) buf
        unfold parsePktAux
        by_cases h4 : buf.length < 4
        · rw [if_pos h4, if_pos h4]
        · rw [if_neg h4, if_neg h4]
          cases hv : hexValList (buf.take 4) with
          | none => rfl
          | some n =>
            dsimp only
            by_cases hn0 : n = 0
            · rw [if_pos hn0, if_pos hn0]
            · rw [if_neg hn0, if_neg hn0]
              by_cases hn4 : n < 4
              · rw [if_pos hn4, if_pos hn4]
              · rw [if_neg hn4, if_neg hn4]
                by_cases hbig : 65520 < n
                · rw [if_pos hbig, if_pos hbig]
                · rw [if_neg hbig, if_neg hbig]
                  by_cases htr : (buf.drop 4).length < n - 4
                  · rw [if_pos htr, if_pos htr]
                  · rw [if_neg htr, if_neg htr]
                    congr 1
                    have hlen : ((buf.drop 4).drop (n - 4)).length = buf.length - 4 - (n - 4) := by
                      rw [List.length_drop, List.length_drop]
                    exact ihf f' (Nat.lt_succ_self f') g'
                      ((buf.drop 4).drop (n - 4)) (by omega) (by omega)

theorem parsePktAux_cons (f : Nat) (s rest : List Char) (hs : s.length ≤ 65516) :
    parsePktAux (f + 1) (createPktLine s ++ rest) = s :: parsePktAux f rest := by
  have hlt : s.length + 4 < 65536 := by omega
  have hpadlen : (pad4 (natToHex (s.length + 4))).length = 4 :=
    pad4_length _ (natToHex_length_le (s.length + 4) hlt)
  have hval : hexValList (pad4 (natToHex (s.length + 4))) = some (s.length + 4) :=
    hexValList_pad4_natToHex (s.length + 4) hlt
  have hbuf : createPktLine s ++ rest = pad4 (natToHex (s.length + 4)) ++ (s ++ rest) := by
    simp [createPktLine, List.append_assoc]
  rw [hbuf]
  have hL : (pad4 (natToHex (s.length + 4)) ++ (s ++ rest)).length =
      4 + s.length + rest.length := by
    simp [List.length_append, hpadlen]
    omega
  unfold parsePktAux
  rw [List.take_left' hpadlen, List.drop_left' hpadlen, hval, hL]
  rw [if_neg (by omega : ¬ (4 + s.length + rest.length < 4))]
  dsimp only
  rw [if_neg (by omega : ¬ (s.length + 4 = 0)),
    if_neg (by omega : ¬ (s.length + 4 < 4)),
    if_neg (by omega : ¬ (65520 < s.length + 4)),
    if_neg (by simp [List.length_append] : ¬ ((s ++ rest).length < s.length + 4 - 4))]
  have h44 : s.length + 4 - 4 = s.length := by omega
  rw [h44, List.take_left, List.drop_left, ← parsePktAux.eq_def]

theorem pktConcat_cons (s : List Char) (tail : List (List Char)) :
    (((s :: tail).map createPktLine).foldr (· ++ ·) []) =
      createPktLine s ++ ((tail.map createPktLine).foldr (· ++ ·) []) := by
  simp

/-- Counterexample to C8 as stated: for the single-element sequence holding
one 65517-char string — one byte past the 65516-byte pkt-line payload
maximum — the encoded length field is `fff1`, which lies in the framing-error
range above `fff0`, so decoding the concatenation of encodings yields `[]`,
not the original sequence.  The unbounded round-trip law fails. -/
theorem claim8_cex :
    parsePktLines (([exLongPayload].map createPktLine).foldr (· ++ ·) []) ≠
      [exLongPayload] := by
  have hlen : exLongPayload.length = 65517 := by
    rw [show exLongPayload = List.replicate 65517 'a' from rfl, List.length_replicate]
  have hhex : natToHex 65521 = strL "fff1" := by decide
  have hc : createPktLine exLongPayload = strL "fff1" ++ exLongPayload := by
    unfold createPktLine
    rw [hlen]
    norm_num
    rw [hhex]
    rfl
  have hbuflen : (strL "fff1" ++ exLongPayload).length = 65520 + 1 := by
    rw [List.length_append, hlen]
    rfl
  have hstep : parsePktLines (strL "fff1" ++ exLongPayload) = [] := by
    unfold parsePktLines
    rw [hbuflen]
    unfold parsePktAux
    rw [List.take_left' (show (strL "fff1").length = 4 from rfl), hbuflen]
    rw [if_neg (by omega : ¬ (65520 + 1 < 4))]
    have hv : hexValList (strL "fff1") = some 65521 := by decide
    rw [hv]
    dsimp only
    rw [if_neg (by omega : ¬ (65521 = 0)), if_neg (by omega : ¬ (65521 < 4)),
      if_pos (by omega : 65520 < 65521)]
  intro hcontra
  rw [pktConcat_cons, List.map_nil, List.foldr_nil, List.append_nil, hc, hstep] at hcontra
  exact List.noConfusion hcontra

/-- Claim C8 (amended): for every finite sequence of ASCII strings without
embedded NULs in which every string is at most 65516 chars long (the
pkt-line payload maximum; the counterexample shows the law fails one byte
above it), `parsePktLines` applied to the concatenation of `createPktLine`
applied to each element reproduces the original sequence exactly. -/
theorem claim8_roundtrip (seq : List (List Char))
    (hlen : ∀ s ∈ seq, s.length ≤ 65516)
    (hascii : ∀ s ∈ seq, ∀ c ∈ s, c.toNat < 128 ∧ c ≠ '\x00') :
    parsePktLines ((seq.map createPktLine).foldr (· ++ ·) []) = seq := by
  induction seq with
  | nil => rfl
  | cons s tail ih =>
    have hs : s.length ≤ 65516 := hlen s (List.mem_cons_self s tail)
    have htail : parsePktLines ((tail.map createPktLine).foldr (· ++ ·) []) = tail :=
      ih (fun t ht => hlen t (List.mem_cons_of_mem s ht))
        (fun t ht => hascii t (List.mem_cons_of_mem s ht))
    rw [pktConcat_cons]
    set rest := (tail.map createPktLine).foldr (· ++ ·) [] with hrest
    have hclen : (createPktLine s ++ rest).length = 4 + s.length + rest.length := by
      have hpadlen : (pad4 (natToHex (s.length + 4))).length = 4 :=
        pad4_length _ (natToHex_length_le (s.length + 4) (by omega))
      simp [createPktLine, List.length_append, hpadlen]
      omega
    unfold parsePktLines
    rw [hclen]
    have h1 : 4 + s.length + rest.length = (3 + s.length + rest.length) + 1 := by omega
    rw [h1]
    rw [parsePktAux_cons (3 + s.length + rest.length) s rest hs]
    rw [parsePktAux_fuel (3 + s.length + rest.length) rest.length rest (by omega) le_rfl]
    rw [← parsePktLines]
    rw [htail]

/-- Witness for the amended C8 at a concrete two-element sequence. -/
theorem claim8_roundtrip_witness :
    parsePktLines ((([strL "want abc", strL "done"]).map createPktLine).foldr (· ++ ·) []) =
      [strL "want abc", strL "done"] :=
  claim8_roundtrip [strL "want abc", strL "done"] (by decide) (by decide)

end JejuGit
